import Mathlib

/-!
Verification development for the watermark-gated partition consumer
(`SynchronizedConsumer`) and the native-symbolication utilities of this
repository.

The utilities (`find_all_stacktraces`, `get_sdk_from_os`) are embedded
directly from `src/sentry/lang/native/utils.py`.  The consumer itself is not
among the provided source files — only its integration tests
(`tests/sentry/eventstream/kafka/test_consumer.py`) are — so its data model
and operations are modelled from the specification (partition state table,
watermark tracker, gated poll) and each such definition carries a
`Modelled from the spec:` doc comment.
-/

namespace Sentry

/-! ## Embedding of `sentry.lang.native.utils` -/

/-- A stacktrace container (an exception value or a thread) as read by
`_probe_for_stacktrace`: Python's `container.get(key)` returns `None` both
for a missing key and for an explicit `None` value, and the code tests
`is not None`, so `Option α` (`α` the type of stacktrace payloads) is an
exact model of each slot. -/
structure Container (α : Type) where
  raw_stacktrace : Option α
  stacktrace : Option α
deriving DecidableEq, Repr

/-- The fields of an event data dictionary read by `find_all_stacktraces`.
The top-level reads are guarded by Python truthiness (`if exc_container:`,
`if stacktrace:`, `if threads:`), so `none` models a missing, `None`, or
falsy value and `some` a truthy one; for `exception`/`threads` the payload
is the dictionary's `values` list. -/
structure EventData (α : Type) where
  exception : Option (List (Container α))
  stacktrace : Option α
  threads : Option (List (Container α))
deriving DecidableEq, Repr

/-- `_probe_for_stacktrace` from `utils.py`: prefer a non-`None`
`raw_stacktrace`, else take a non-`None` `stacktrace`, else contribute
nothing; each appended pair carries the container itself. -/
def probe_for_stacktrace {α : Type} (c : Container α) :
    List (α × Option (Container α)) :=
  match c.raw_stacktrace with
  | some raw => [(raw, some c)]
  | none =>
    match c.stacktrace with
    | some processed => [(processed, some c)]
    | none => []

/-- `find_all_stacktraces` from `utils.py`: probe each exception value, then
append a truthy top-level stacktrace with container `None`, then probe each
thread. -/
def find_all_stacktraces {α : Type} (data : EventData α) :
    List (α × Option (Container α)) :=
  (match data.exception with
   | some vs => vs.flatMap probe_for_stacktrace
   | none => [])
  ++ (match data.stacktrace with
      | some s => [(s, none)]
      | none => [])
  ++ (match data.threads with
      | some vs => vs.flatMap probe_for_stacktrace
      | none => [])

/-- Split a character list at every occurrence of `sep`, keeping empty
pieces — the semantics of Python's `str.split(sep)` with an explicit
one-character separator.  The result is always nonempty. -/
def splitOnChar (sep : Char) : List Char → List (List Char)
  | [] => [[]]
  | c :: cs =>
    match splitOnChar sep cs with
    | [] => [[c]]
    | h :: t => if c = sep then [] :: h :: t else (c :: h) :: t

/-- Python `str.split` with a single-character separator, on Lean strings. -/
def pySplit (sep : Char) (s : String) : List String :=
  (splitOnChar sep s.data).map String.mk

/-- Numeric value of a list of decimal digit characters. -/
def natOfDigits (l : List Char) : Nat :=
  l.foldl (fun n c => n * 10 + (c.toNat - 48)) 0

/-- A character stripped by Python's `int` before parsing (the ASCII
whitespace characters space, tab, newline, carriage return, vertical tab,
form feed). -/
def isPySpace (c : Char) : Bool :=
  c = ' ' ∨ c = '\t' ∨ c = '\n' ∨ c = '\r' ∨ c.toNat = 11 ∨ c.toNat = 12

/-- Strip leading and trailing whitespace from a character list. -/
def trimChars (l : List Char) : List Char :=
  ((l.dropWhile isPySpace).reverse.dropWhile isPySpace).reverse

/-- Python's `int(s)` on a string: surrounding whitespace is stripped, an
optional single sign is allowed, and the remainder must be one or more
decimal digits; any other input raises `ValueError`, modelled as `none`. -/
def pyInt? (s : String) : Option Int :=
  match trimChars s.data with
  | [] => none
  | '-' :: ds =>
    if ds ≠ [] ∧ ds.all Char.isDigit then some (-(natOfDigits ds : Int)) else none
  | '+' :: ds =>
    if ds ≠ [] ∧ ds.all Char.isDigit then some ((natOfDigits ds : Int)) else none
  | ds =>
    if ds.all Char.isDigit then some ((natOfDigits ds : Int)) else none

/-- The fields of the `os` context dictionary read by `get_sdk_from_os`.
`none` models a missing key (`'name' not in data`); present values are
modelled as strings (the code passes `data['version']` through
`six.text_type` before parsing). -/
structure OsData where
  name : Option String
  version : Option String
  build : Option String
deriving DecidableEq, Repr

/-- The dictionary returned by `get_sdk_from_os` on success. -/
structure SdkInfo where
  sdk_name : String
  version_major : Int
  version_minor : Int
  version_patchlevel : Int
  build : Option String
deriving DecidableEq, Repr

/-- `data['version'].split('-', 1)[0]`: the part of the version string
before the first dash. -/
def versionHead (s : String) : String :=
  match pySplit '-' s with
  | [] => s
  | h :: _ => h

/-- `(version.split('-', 1)[0] + '.0' * 3).split('.')[:3]`: the first three
dot-separated components after appending `".0.0.0"`. -/
def versionComponents (v : String) : List String :=
  (pySplit '.' (versionHead v ++ ".0.0.0")).take 3

/-- `tuple(int(x) for x in components)`: parse every component with `int`,
failing (`ValueError`, modelled as `none`) as soon as one component fails. -/
def pyIntList? : List String → Option (List Int)
  | [] => some []
  | s :: rest =>
    match pyInt? s, pyIntList? rest with
    | some i, some l => some (i :: l)
    | _, _ => none

/-- `get_sdk_from_os` from `utils.py`: `None` when `name` or `version` is
missing or `int` fails on one of the three version components; otherwise the
sdk-info dictionary.  The wildcard branch is unreachable: `versionComponents`
always has exactly three entries (proved below). -/
def get_sdk_from_os (data : OsData) : Option SdkInfo :=
  match data.name, data.version with
  | some name, some v =>
    match pyIntList? (versionComponents v) with
    | some [a, b, c] => some ⟨name, a, b, c, data.build⟩
    | _ => none
  | _, _ => none

/-! ## Model of the synchronized consumer

The `SynchronizedConsumer` source is not among the provided files, so the
definitions below are modelled from the specification (sections 3, 4, 6). -/

/-- Modelled from the spec: **PartitionKey** — (topic name, partition index). -/
abbrev PartitionKey := String × Nat

/-- Modelled from the spec: **PartitionState** — `local_offset` is the next
offset to read, `remote_offset` the latest known committed offset of the
synchronizing group (`none` until the first commit-log record for the key). -/
structure PartitionState where
  local_offset : Nat
  remote_offset : Option Nat
deriving DecidableEq, Repr

/-- Modelled from the spec: the derived `paused` flag — true iff
`remote_offset is None or local_offset >= remote_offset`. -/
def PartitionState.paused (s : PartitionState) : Bool :=
  match s.remote_offset with
  | none => true
  | some r => decide (r ≤ s.local_offset)

/-- A partition is ready for delivery iff it is not paused, i.e.
`remote_offset is not None and local_offset < remote_offset`. -/
def PartitionState.ready (s : PartitionState) : Bool :=
  !s.paused

/-- Modelled from the spec: the partition state table, a mapping from
`PartitionKey` to `PartitionState` (entries in assignment order). -/
abbrev Table := List (PartitionKey × PartitionState)

/-- Look up the state of a partition key in the table. -/
def lookup (t : Table) (k : PartitionKey) : Option PartitionState :=
  (t.find? (fun e => decide (e.1 = k))).map Prod.snd

/-- Modelled from the spec: the entry created on assignment — starting
`local_offset`, `remote_offset = None` (hence `paused = true`). -/
def freshState (o : Nat) : PartitionState :=
  ⟨o, none⟩

/-- Remove any entry for `k` from the table. -/
def eraseKey (t : Table) (k : PartitionKey) : Table :=
  t.filter (fun e => decide (e.1 ≠ k))

/-- Modelled from the spec: `assign(keys, starting_offsets)` — creates fresh
entries (`paused=true`, `remote_offset=None`) for every assigned key,
discarding any prior entry for the same key. -/
def assign (t : Table) (ks : List (PartitionKey × Nat)) : Table :=
  ks.foldl (fun acc ko => (ko.1, freshState ko.2) :: eraseKey acc ko.1) t

/-- Modelled from the spec: `revoke(keys)` — deletes entries. -/
def revoke (t : Table) (ks : List PartitionKey) : Table :=
  t.filter (fun e => decide (e.1 ∉ ks))

/-- Modelled from the spec: `record_local_offset(key, offset)` — no-op if
the key is not present; else sets `local_offset = offset`. -/
def record_local_offset (t : Table) (k : PartitionKey) (o : Nat) : Table :=
  t.map (fun e => if e.1 = k then (e.1, ⟨o, e.2.remote_offset⟩) else e)

/-- Modelled from the spec: `apply_watermark(key, offset)` — no-op if the
key is not present; else `remote_offset = max(remote_offset or 0, offset)`. -/
def apply_watermark (t : Table) (k : PartitionKey) (o : Nat) : Table :=
  t.map (fun e =>
    if e.1 = k then (e.1, ⟨e.2.local_offset, some (max (e.2.remote_offset.getD 0) o)⟩)
    else e)

/-- A broker message of the main topic. -/
structure Message where
  topic : String
  partition : Nat
  offset : Nat
  key : Option String
  value : String
deriving DecidableEq, Repr

/-- The partition key a message belongs to. -/
def keyOf (m : Message) : PartitionKey :=
  (m.topic, m.partition)

/-- The underlying broker log: the message of partition `k` at offset `o`,
if one exists. -/
def fetch (log : List Message) (k : PartitionKey) (o : Nat) : Option Message :=
  log.find? (fun m => decide (m.topic = k.1 ∧ m.partition = k.2 ∧ m.offset = o))

/-- Modelled from the spec: the delivery choice of `poll` — the first
assigned partition that is not paused and has a message available at its
`local_offset` yields that message; paused partitions are never read. -/
def findDeliverable (log : List Message) (t : Table) : Option Message :=
  t.findSome? (fun e => if e.2.ready then fetch log e.1 e.2.local_offset else none)

/-- Modelled from the spec: one `poll` call — returns at most one message,
and on delivery records the next offset (`message.offset + 1`) into the
state table via `record_local_offset` before returning. -/
def pollOnce (log : List Message) (t : Table) : Option Message × Table :=
  match findDeliverable log t with
  | none => (none, t)
  | some m => (some m, record_local_offset t (keyOf m) (m.offset + 1))

/-- A raw commit-log record as consumed by the watermark tracker (key and
value bytes, UTF-8 decoded). -/
structure RawRecord where
  key : String
  value : String
deriving DecidableEq, Repr

/-- Modelled from the spec: **CommitLogRecord** — the parsed unit
`(topic, partition, group, offset)`. -/
structure CommitLogRecord where
  topic : String
  partition : Nat
  group : String
  offset : Nat
deriving DecidableEq, Repr

/-- Parse a UTF-8 decimal string (one or more digits) as a natural number. -/
def decNat? (s : String) : Option Nat :=
  if s.data ≠ [] ∧ s.data.all Char.isDigit then some (natOfDigits s.data) else none

/-- Modelled from the spec: parse a commit-log record key of the wire format
`"{topic}:{partition}:{group}"`; malformed keys yield `none`. -/
def parseKey (k : String) : Option (String × Nat × String) :=
  match pySplit ':' k with
  | [topic, p, group] => (decNat? p).map (fun pn => (topic, pn, group))
  | _ => none

/-- Modelled from the spec: parse a raw commit-log record — key of the form
`"{topic}:{partition}:{group}"`, value a UTF-8 decimal string of the
next-offset-to-read; any malformed part yields `none`. -/
def parseRecord (r : RawRecord) : Option CommitLogRecord :=
  match parseKey r.key, decNat? r.value with
  | some (t, p, g), some o => some ⟨t, p, g, o⟩
  | _, _ => none

/-- Modelled from the spec: the watermark tracker's handling of one consumed
record — skip it if malformed, discard it if its group is not the configured
synchronize-group, otherwise apply the watermark. -/
def processRecord (syncGroup : String) (t : Table) (r : RawRecord) : Table :=
  match parseRecord r with
  | none => t
  | some rec =>
    if rec.group = syncGroup then apply_watermark t (rec.topic, rec.partition) rec.offset
    else t

/-- Modelled from the spec: the tracker loop over a sequence of consumed
commit-log records. -/
def runTracker (syncGroup : String) (t : Table) (rs : List RawRecord) : Table :=
  rs.foldl (processRecord syncGroup) t

/-- Modelled from the spec: the starting local offset resolved on
assignment — the group's last committed offset if present, else the log's
earliest available offset. -/
def resolveStartingOffset (committed : Option Nat) (earliest : Nat) : Nat :=
  committed.getD earliest

/-- An event of the consumer's interleaving semantics: a rebalance
assignment, a rebalance revocation, a watermark update from the tracker, or
a `poll` call. -/
inductive Event where
  | doAssign (ks : List (PartitionKey × Nat))
  | doRevoke (ks : List PartitionKey)
  | doWatermark (k : PartitionKey) (o : Nat)
  | doPoll
deriving DecidableEq, Repr

/-- The table produced by one event. -/
def stepTable (log : List Message) (t : Table) : Event → Table
  | .doAssign ks => assign t ks
  | .doRevoke ks => revoke t ks
  | .doWatermark k o => apply_watermark t k o
  | .doPoll => (pollOnce log t).2

/-- The table reached from `t` by a sequence of events. -/
def execTable (log : List Message) (t : Table) (es : List Event) : Table :=
  es.foldl (stepTable log) t

/-! ### The end-to-end scenario of the integration tests

A single partition `("T", 0)` of the main topic holding the three messages
produced by the tests (offsets 0 through 2, values `"0" "1" "2"`, no key),
with synchronize-group `"G"`. -/

/-- The broker log of the test scenario: one partition, three messages. -/
def log3 : List Message :=
  [⟨"T", 0, 0, none, "0"⟩, ⟨"T", 0, 1, none, "1"⟩, ⟨"T", 0, 2, none, "2"⟩]

/-- `test_consumer_start_from_partition_start`: assignment with no prior
committed offset, so the starting local offset is the log's earliest offset. -/
def startScenario0 : Table :=
  assign [] [(("T", 0), resolveStartingOffset none 0)]

/-- The same scenario after the tracker consumed the commit-log record
`key="T:0:G" value="1"`. -/
def startScenario1 : Table :=
  runTracker "G" startScenario0 [⟨"T:0:G", "1"⟩]

/-- `test_consumer_start_from_committed_offset`: assignment with prior
committed offset 1, so the starting local offset is 1. -/
def committedScenario0 : Table :=
  assign [] [(("T", 0), resolveStartingOffset (some 1) 0)]

/-- The committed-offset scenario after the commit-log record advancing the
watermark to 1. -/
def committedScenario1 : Table :=
  runTracker "G" committedScenario0 [⟨"T:0:G", "1"⟩]

/-- The committed-offset scenario after the further commit-log record
advancing the watermark to 2. -/
def committedScenario2 : Table :=
  runTracker "G" committedScenario1 [⟨"T:0:G", "2"⟩]

/-! ## Helper lemmas: table keys, lookup, and the poll step -/

/-- The keys of a state table, in entry order. -/
def keys (t : Table) : List PartitionKey :=
  t.map Prod.fst

/-- A table is well formed when no key occurs twice. -/
def keysNodup (t : Table) : Prop :=
  (keys t).Nodup

theorem keys_eraseKey_sublist (t : Table) (k : PartitionKey) :
    (keys (eraseKey t k)).Sublist (keys t) :=
  (List.filter_sublist t).map Prod.fst

theorem not_mem_keys_eraseKey (t : Table) (k : PartitionKey) :
    k ∉ keys (eraseKey t k) := by
  intro h
  obtain ⟨e, he, hek⟩ := List.mem_map.mp h
  have := (List.mem_filter.mp he).2
  simp only [decide_eq_true_eq] at this
  exact this hek

theorem keysNodup_eraseKey {t : Table} (h : keysNodup t) (k : PartitionKey) :
    keysNodup (eraseKey t k) :=
  List.Nodup.sublist (keys_eraseKey_sublist t k) h

theorem keysNodup_assign {t : Table} (h : keysNodup t)
    (ks : List (PartitionKey × Nat)) : keysNodup (assign t ks) := by
  induction ks generalizing t with
  | nil => exact h
  | cons ko ks ih =>
    have hstep : keysNodup ((ko.1, freshState ko.2) :: eraseKey t ko.1) :=
      List.nodup_cons.mpr ⟨not_mem_keys_eraseKey t ko.1, keysNodup_eraseKey h ko.1⟩
    exact ih hstep

theorem keysNodup_revoke {t : Table} (h : keysNodup t) (ks : List PartitionKey) :
    keysNodup (revoke t ks) :=
  List.Nodup.sublist ((List.filter_sublist t).map Prod.fst) h

theorem keys_record_local_offset (t : Table) (k : PartitionKey) (o : Nat) :
    keys (record_local_offset t k o) = keys t := by
  unfold keys record_local_offset
  rw [List.map_map]
  exact List.map_congr_left (fun e _ => by by_cases hek : e.1 = k <;> simp [hek])

theorem keys_apply_watermark (t : Table) (k : PartitionKey) (o : Nat) :
    keys (apply_watermark t k o) = keys t := by
  unfold keys apply_watermark
  rw [List.map_map]
  exact List.map_congr_left (fun e _ => by by_cases hek : e.1 = k <;> simp [hek])

theorem keysNodup_apply_watermark {t : Table} (h : keysNodup t)
    (k : PartitionKey) (o : Nat) : keysNodup (apply_watermark t k o) := by
  unfold keysNodup
  rw [keys_apply_watermark]
  exact h

theorem keysNodup_pollOnce {t : Table} (h : keysNodup t) (log : List Message) :
    keysNodup (pollOnce log t).2 := by
  unfold pollOnce
  cases findDeliverable log t with
  | none => exact h
  | some m =>
    show keysNodup (record_local_offset t (keyOf m) (m.offset + 1))
    unfold keysNodup
    rw [keys_record_local_offset]
    exact h

theorem keysNodup_step {t : Table} (h : keysNodup t) (log : List Message)
    (ev : Event) : keysNodup (stepTable log t ev) := by
  cases ev with
  | doAssign ks => exact keysNodup_assign h ks
  | doRevoke ks => exact keysNodup_revoke h ks
  | doWatermark k o => exact keysNodup_apply_watermark h k o
  | doPoll => exact keysNodup_pollOnce h log

theorem keysNodup_execTable {t : Table} (h : keysNodup t) (log : List Message)
    (es : List Event) : keysNodup (execTable log t es) := by
  induction es generalizing t with
  | nil => exact h
  | cons ev es ih => exact ih (keysNodup_step h log ev)

theorem keysNodup_nil : keysNodup [] :=
  List.nodup_nil

theorem lookup_of_mem {t : Table} {k : PartitionKey} {s : PartitionState}
    (h : keysNodup t) (hm : (k, s) ∈ t) : lookup t k = some s := by
  induction t with
  | nil => cases hm
  | cons e rest ih =>
    have hnd := List.nodup_cons.mp h
    by_cases hek : e.1 = k
    · cases List.mem_cons.mp hm with
      | inl heq =>
        unfold lookup
        rw [List.find?_cons_of_pos _ (by simp [hek])]
        rw [← heq]
        rfl
      | inr hrest =>
        exfalso
        exact hnd.1 (hek ▸ List.mem_map.mpr ⟨(k, s), hrest, rfl⟩)
    · cases List.mem_cons.mp hm with
      | inl heq => exact absurd (congrArg Prod.fst heq.symm) hek
      | inr hrest =>
        unfold lookup
        rw [List.find?_cons_of_neg _ (by simp [hek])]
        exact ih hnd.2 hrest

theorem exists_mem_of_findSome? {α β : Type} {f : α → Option β} {l : List α}
    {b : β} (h : l.findSome? f = some b) : ∃ a, a ∈ l ∧ f a = some b := by
  induction l with
  | nil => rw [List.findSome?_nil] at h; cases h
  | cons a as ih =>
    rw [List.findSome?_cons] at h
    cases hfa : f a with
    | some c =>
      rw [hfa] at h
      exact ⟨a, List.mem_cons_self a as, by rw [hfa]; exact h⟩
    | none =>
      rw [hfa] at h
      obtain ⟨x, hx, hfx⟩ := ih h
      exact ⟨x, List.mem_cons_of_mem a hx, hfx⟩

theorem ready_iff {s : PartitionState} :
    s.ready = true ↔ ∃ r, s.remote_offset = some r ∧ s.local_offset < r := by
  unfold PartitionState.ready PartitionState.paused
  cases hr : s.remote_offset with
  | none => simp [hr]
  | some r => simp [hr, Nat.lt_iff_add_one_le, Nat.not_le, Nat.lt_iff_add_one_le]

theorem fetch_fields {log : List Message} {k : PartitionKey} {o : Nat}
    {m : Message} (h : fetch log k o = some m) :
    m.topic = k.1 ∧ m.partition = k.2 ∧ m.offset = o := by
  have := List.find?_some h
  simpa using this

/-- The single-step delivery bound: if a poll on a well-formed table returns
a message, the message's partition has a known watermark strictly above the
message's offset, and the offset is exactly the partition's local offset. -/
theorem poll_delivers_below_watermark {log : List Message} {t : Table}
    {m : Message} {t' : Table} (hn : keysNodup t)
    (h : pollOnce log t = (some m, t')) :
    ∃ s r, lookup t (keyOf m) = some s ∧ m.offset = s.local_offset ∧
      s.remote_offset = some r ∧ m.offset < r := by
  unfold pollOnce at h
  cases hfd : findDeliverable log t with
  | none => rw [hfd] at h; cases h
  | some m0 =>
    rw [hfd] at h
    have hm0 : m0 = m := by
      have := congrArg Prod.fst h
      simpa using this
    subst hm0
    obtain ⟨e, he, hfe⟩ := exists_mem_of_findSome? hfd
    cases hready : e.2.ready with
    | false => rw [hready] at hfe; simp at hfe
    | true =>
      rw [hready] at hfe
      simp only [if_true] at hfe
      obtain ⟨htopic, hpart, hoff⟩ := fetch_fields hfe
      obtain ⟨r, hr, hlt⟩ := ready_iff.mp hready
      have hkey : keyOf m0 = e.1 := by
        unfold keyOf
        rw [htopic, hpart]
      refine ⟨e.2, r, ?_, hoff, hr, hoff ▸ hlt⟩
      rw [hkey]
      exact lookup_of_mem hn (by exact he)

/-- If every entry of the table is ineligible (paused), a poll delivers
nothing. -/
theorem poll_none_of_all_unready {log : List Message} {t : Table}
    (h : ∀ e ∈ t, e.2.ready = false) : (pollOnce log t).1 = none := by
  have hfd : findDeliverable log t = none := by
    apply List.findSome?_eq_none_iff.mpr
    intro e he
    rw [h e he]
    simp
  unfold pollOnce
  rw [hfd]

/-- If no entry of the table has a message available at its local offset, a
poll delivers nothing. -/
theorem poll_none_of_no_data {log : List Message} {t : Table}
    (h : ∀ e ∈ t, fetch log e.1 e.2.local_offset = none) :
    (pollOnce log t).1 = none := by
  have hfd : findDeliverable log t = none := by
    apply List.findSome?_eq_none_iff.mpr
    intro e he
    cases hready : e.2.ready with
    | false => simp
    | true => simp [h e he]
  unfold pollOnce
  rw [hfd]

theorem apply_watermark_comm (t : Table) (k : PartitionKey) (w1 w2 : Nat) :
    apply_watermark (apply_watermark t k w1) k w2
      = apply_watermark (apply_watermark t k w2) k w1 := by
  unfold apply_watermark
  rw [List.map_map, List.map_map]
  apply List.map_congr_left
  intro e _
  have hmax : ∀ a : Nat, max (max a w1) w2 = max (max a w2) w1 := fun a => by omega
  by_cases hek : e.1 = k
  · simp [Function.comp, hek, hmax]
  · simp [Function.comp, hek]

theorem apply_watermark_idem (t : Table) (k : PartitionKey) (w : Nat) :
    apply_watermark (apply_watermark t k w) k w = apply_watermark t k w := by
  unfold apply_watermark
  rw [List.map_map]
  apply List.map_congr_left
  intro e _
  have hmax : ∀ a : Nat, max (max a w) w = max a w := fun a => by omega
  by_cases hek : e.1 = k
  · simp [Function.comp, hek, hmax]
  · simp [Function.comp, hek]

theorem lookup_apply_watermark {t : Table} {k : PartitionKey}
    {s : PartitionState} (h : lookup t k = some s) (w : Nat) :
    lookup (apply_watermark t k w) k
      = some ⟨s.local_offset, some (max (s.remote_offset.getD 0) w)⟩ := by
  induction t with
  | nil => unfold lookup at h; simp at h
  | cons e rest ih =>
    by_cases hek : e.1 = k
    · unfold lookup at h
      rw [List.find?_cons_of_pos _ (by simp [hek])] at h
      have hs : e.2 = s := by simpa using h
      unfold apply_watermark lookup
      simp only [List.map_cons, hek, if_pos]
      rw [List.find?_cons_of_pos _ (by simp)]
      rw [hs]
      rfl
    · unfold lookup at h
      rw [List.find?_cons_of_neg _ (by simp [hek])] at h
      unfold apply_watermark lookup
      simp only [List.map_cons, hek, if_neg, if_false]
      rw [List.find?_cons_of_neg _ (by simp [hek])]
      exact ih h

/-! ## The claims -/

/-- C1: for every partition and every state reachable by any interleaving of
watermark updates, rebalances (assign/revoke), and polls, `poll` never
returns a message whose offset is at or past the partition's current
`remote_offset`; and once every assigned partition has caught up to its
watermark (is paused), a poll returns nothing. -/
theorem poll_never_delivers_at_or_past_watermark (log : List Message)
    (es : List Event) :
    (∀ m t2, pollOnce log (execTable log [] es) = (some m, t2) →
      ∃ s r, lookup (execTable log [] es) (keyOf m) = some s ∧
        m.offset = s.local_offset ∧ s.remote_offset = some r ∧ m.offset < r)
    ∧ ((∀ e ∈ execTable log [] es, e.2.paused = true) →
        (pollOnce log (execTable log [] es)).1 = none) := by
  have hn : keysNodup (execTable log [] es) :=
    keysNodup_execTable keysNodup_nil log es
  constructor
  · intro m t2 h
    exact poll_delivers_below_watermark hn h
  · intro h
    apply poll_none_of_all_unready
    intro e he
    simp [PartitionState.ready, h e he]

/-- Witness for C1: on the test scenario's log, after assigning partition
`("T", 0)` at offset 0 and applying watermark 1, the poll that returns the
offset-0 message indeed satisfies the watermark bound; and with only the
just-assigned (paused) partition, a poll returns nothing. -/
theorem poll_never_delivers_at_or_past_watermark_witness :
    (∃ s r,
      lookup (execTable log3 [] [Event.doAssign [(("T", 0), 0)],
          Event.doWatermark ("T", 0) 1]) (keyOf ⟨"T", 0, 0, none, "0"⟩) = some s
      ∧ (⟨"T", 0, 0, none, "0"⟩ : Message).offset = s.local_offset
      ∧ s.remote_offset = some r
      ∧ (⟨"T", 0, 0, none, "0"⟩ : Message).offset < r)
    ∧ (pollOnce log3 (execTable log3 [] [Event.doAssign [(("T", 0), 0)]])).1 = none :=
  ⟨(poll_never_delivers_at_or_past_watermark log3
      [Event.doAssign [(("T", 0), 0)], Event.doWatermark ("T", 0) 1]).1
      ⟨"T", 0, 0, none, "0"⟩ [(("T", 0), ⟨1, some 1⟩)] (by decide),
   (poll_never_delivers_at_or_past_watermark log3
      [Event.doAssign [(("T", 0), 0)]]).2 (by decide)⟩

/-- C2 counterexample: on a partition whose `remote_offset` is already 10,
applying watermarks 3 and then 5 leaves `remote_offset = 10`, not
`max 3 5 = 5` — so "applying w1 then w2 yields `remote_offset = max(w1, w2)`"
is false as stated for an arbitrary partition present in the table. -/
theorem apply_watermark_not_plain_max :
    (lookup (apply_watermark (apply_watermark [(("T", 0), ⟨0, some 10⟩)]
        ("T", 0) 3) ("T", 0) 5) ("T", 0)).map PartitionState.remote_offset
      = some (some 10)
    ∧ (10 : Nat) ≠ max 3 5 := by
  constructor
  · decide
  · decide

/-- C2 (amended): watermark application is a monotone max-merge relative to
the existing value: applying `w1` then `w2` in either order yields the same
table, with the partition's `remote_offset = max(existing or 0, max w1 w2)`
(hence `max w1 w2` exactly when no watermark had been observed yet);
applying the same watermark twice equals applying it once; and a watermark
not above the current `remote_offset` leaves the entry unchanged. -/
theorem apply_watermark_max_merge (t : Table) (k : PartitionKey) (w1 w2 : Nat) :
    apply_watermark (apply_watermark t k w1) k w2
      = apply_watermark (apply_watermark t k w2) k w1
    ∧ (∀ s, lookup t k = some s →
        lookup (apply_watermark (apply_watermark t k w1) k w2) k
          = some ⟨s.local_offset, some (max (s.remote_offset.getD 0) (max w1 w2))⟩)
    ∧ apply_watermark (apply_watermark t k w1) k w1 = apply_watermark t k w1
    ∧ (∀ s r, lookup t k = some s → s.remote_offset = some r → w1 ≤ r →
        lookup (apply_watermark t k w1) k = some s) := by
  refine ⟨apply_watermark_comm t k w1 w2, ?_, apply_watermark_idem t k w1, ?_⟩
  · intro s h
    rw [lookup_apply_watermark (lookup_apply_watermark h w1) w2]
    have : max (max (s.remote_offset.getD 0) w1) w2
        = max (s.remote_offset.getD 0) (max w1 w2) := by omega
    simp [this]
  · intro s r h hr hle
    rw [lookup_apply_watermark h w1, hr]
    have : max ((some r : Option Nat).getD 0) w1 = r := by
      simp [Option.getD]
      omega
    rw [this]
    cases s with
    | mk lo ro =>
      simp at hr
      rw [hr]

/-- Witness for C2: on a partition with `remote_offset = 4`, applying 3 then
7 yields `max 4 (max 3 7) = 7`; and on a partition with `remote_offset = 9`,
applying the lower watermark 5 leaves the entry unchanged. -/
theorem apply_watermark_max_merge_witness :
    lookup (apply_watermark (apply_watermark [(("T", 0), ⟨0, some 4⟩)]
        ("T", 0) 3) ("T", 0) 7) ("T", 0) = some ⟨0, some (max 4 (max 3 7))⟩
    ∧ lookup (apply_watermark [(("T", 0), ⟨2, some 9⟩)] ("T", 0) 5) ("T", 0)
        = some ⟨2, some 9⟩ :=
  ⟨(apply_watermark_max_merge [(("T", 0), ⟨0, some 4⟩)] ("T", 0) 3 7).2.1
      ⟨0, some 4⟩ (by decide),
   (apply_watermark_max_merge [(("T", 0), ⟨2, some 9⟩)] ("T", 0) 5 0).2.2.2
      ⟨2, some 9⟩ 9 (by decide) rfl (by decide)⟩

/-- C3: with no prior committed offset the starting local offset is the
log's earliest offset; on the single-partition scenario with messages at
offsets 0–2, polls return nothing before any commit-log record, after the
record `key="T:0:G" value="1"` exactly one poll returns the offset-0 message,
and the next poll returns nothing. -/
theorem start_from_partition_start :
    (∀ e, resolveStartingOffset none e = e)
    ∧ (pollOnce log3 startScenario0).1 = none
    ∧ (pollOnce log3 startScenario1).1 = some ⟨"T", 0, 0, none, "0"⟩
    ∧ (pollOnce log3 (pollOnce log3 startScenario1).2).1 = none :=
  ⟨fun _ => rfl, by decide, by decide, by decide⟩

/-- C4: with a prior committed offset `C` the starting local offset is `C`;
on the scenario with committed offset 1, the commit-log record advancing the
watermark to 1 yields no deliverable message, the record advancing it to 2
yields exactly one message at offset 1, and the next poll returns nothing. -/
theorem start_from_committed_offset :
    (∀ c e, resolveStartingOffset (some c) e = c)
    ∧ resolveStartingOffset (some 1) 0 = 1
    ∧ (pollOnce log3 committedScenario1).1 = none
    ∧ (pollOnce log3 committedScenario2).1 = some ⟨"T", 0, 1, none, "1"⟩
    ∧ (pollOnce log3 (pollOnce log3 committedScenario2).2).1 = none :=
  ⟨fun _ _ => rfl, rfl, by decide, by decide, by decide⟩

/-- C5: assignment always creates the partition entry from scratch
(`paused = true`, `remote_offset = None`) regardless of any prior entry for
the same key; in particular a revoked-and-reassigned partition carries no
watermark from before the revoke and delivers nothing until a fresh
commit-log record is observed. -/
theorem assignment_reseeds_state (t : Table) (k : PartitionKey) (o : Nat)
    (s : PartitionState) (log : List Message) :
    lookup (assign t [(k, o)]) k = some (freshState o)
    ∧ (freshState o).paused = true
    ∧ (freshState o).remote_offset = none
    ∧ (pollOnce log (assign (revoke [(k, s)] [k]) [(k, o)])).1 = none := by
  refine ⟨?_, rfl, rfl, ?_⟩
  · show lookup ((k, freshState o) :: eraseKey t k) k = some (freshState o)
    unfold lookup
    rw [List.find?_cons_of_pos _ (by simp)]
    rfl
  · apply poll_none_of_all_unready
    intro e he
    have hrv : revoke [(k, s)] [k] = [] := by simp [revoke]
    rw [hrv] at he
    have : e = (k, freshState o) := by
      simpa [assign, eraseKey] using he
    rw [this]
    rfl

/-- C6: a well-formed commit-log record whose group matches the configured
synchronize-group is applied via `apply_watermark` with the parsed topic,
partition, and offset; a record of any other group leaves the table
untouched. -/
theorem tracker_filters_by_group (g : String) (t : Table) (r : RawRecord)
    (rec : CommitLogRecord) (h : parseRecord r = some rec) :
    (rec.group = g →
      processRecord g t r = apply_watermark t (rec.topic, rec.partition) rec.offset)
    ∧ (rec.group ≠ g → processRecord g t r = t) := by
  constructor
  · intro hg
    unfold processRecord
    rw [h]
    simp [hg]
  · intro hg
    unfold processRecord
    rw [h]
    simp [hg]

/-- Witness for C6: the record `key="T:0:G" value="5"` is applied when the
synchronize-group is `"G"` and discarded when it is `"H"`. -/
theorem tracker_filters_by_group_witness :
    processRecord "G" [(("T", 0), ⟨0, none⟩)] ⟨"T:0:G", "5"⟩
      = apply_watermark [(("T", 0), ⟨0, none⟩)] ("T", 0) 5
    ∧ processRecord "H" [(("T", 0), ⟨0, none⟩)] ⟨"T:0:G", "5"⟩
      = [(("T", 0), ⟨0, none⟩)] :=
  ⟨(tracker_filters_by_group "G" [(("T", 0), ⟨0, none⟩)] ⟨"T:0:G", "5"⟩
      ⟨"T", 0, "G", 5⟩ (by decide)).1 rfl,
   (tracker_filters_by_group "H" [(("T", 0), ⟨0, none⟩)] ⟨"T:0:G", "5"⟩
      ⟨"T", 0, "G", 5⟩ (by decide)).2 (by decide)⟩

/-- C7: a malformed commit-log record (unparsable key or value) is skipped:
it leaves the table unchanged and the tracker loop simply continues with the
remaining records. -/
theorem tracker_skips_malformed (g : String) (t : Table) (r : RawRecord)
    (rs : List RawRecord) (h : parseRecord r = none) :
    processRecord g t r = t
    ∧ runTracker g t (r :: rs) = runTracker g t rs := by
  have h1 : processRecord g t r = t := by
    unfold processRecord
    rw [h]
  refine ⟨h1, ?_⟩
  unfold runTracker
  rw [List.foldl_cons, h1]

/-- Witness for C7: a record with unparsable key `"garbage"` and a record
with non-decimal value are both skipped by the tracker. -/
theorem tracker_skips_malformed_witness :
    (processRecord "G" startScenario0 ⟨"garbage", "1"⟩ = startScenario0
      ∧ runTracker "G" startScenario0 [⟨"garbage", "1"⟩, ⟨"T:0:G", "1"⟩]
          = runTracker "G" startScenario0 [⟨"T:0:G", "1"⟩])
    ∧ processRecord "G" startScenario0 ⟨"T:0:G", "one"⟩ = startScenario0 :=
  ⟨tracker_skips_malformed "G" startScenario0 ⟨"garbage", "1"⟩
      [⟨"T:0:G", "1"⟩] (by decide),
   (tracker_skips_malformed "G" startScenario0 ⟨"T:0:G", "one"⟩ []
      (by decide)).1⟩

/-- C8: a poll returns at most one message (its result is an option, never
an error value); both the watermark-gated case (all assigned partitions
paused) and the genuinely-no-data case (no message at any partition's local
offset) return nothing, hence are indistinguishable at the API. -/
theorem poll_at_most_one_message (log : List Message) (t : Table) :
    ((pollOnce log t).1 = none ∨ ∃ m, (pollOnce log t).1 = some m)
    ∧ ((∀ e ∈ t, e.2.ready = false) → (pollOnce log t).1 = none)
    ∧ ((∀ e ∈ t, fetch log e.1 e.2.local_offset = none) →
        (pollOnce log t).1 = none) := by
  refine ⟨?_, fun h => poll_none_of_all_unready h, fun h => poll_none_of_no_data h⟩
  cases h : (pollOnce log t).1 with
  | none => exact Or.inl rfl
  | some m => exact Or.inr ⟨m, rfl⟩

/-- Witness for C8: on the scenario log a freshly assigned (gated) partition
polls to nothing, and a ready partition over an empty log also polls to
nothing — the two outcomes coincide. -/
theorem poll_at_most_one_message_witness :
    (pollOnce log3 [(("T", 0), ⟨0, none⟩)]).1 = none
    ∧ (pollOnce [] [(("T", 0), ⟨0, some 2⟩)]).1 = none :=
  ⟨(poll_at_most_one_message log3 [(("T", 0), ⟨0, none⟩)]).2.1 (by decide),
   (poll_at_most_one_message [] [(("T", 0), ⟨0, some 2⟩)]).2.2 (by decide)⟩

theorem probe_snd_eq {α : Type} {c : Container α}
    {pr : α × Option (Container α)} (h : pr ∈ probe_for_stacktrace c) :
    pr.2 = some c := by
  unfold probe_for_stacktrace at h
  cases hr : c.raw_stacktrace with
  | some raw =>
    rw [hr] at h
    rw [List.mem_singleton.mp h]
  | none =>
    rw [hr] at h
    cases hs : c.stacktrace with
    | some p =>
      rw [hs] at h
      rw [List.mem_singleton.mp h]
    | none =>
      rw [hs] at h
      cases h

theorem filter_isNone_flatMap_probe {α : Type} (vs : List (Container α)) :
    (vs.flatMap probe_for_stacktrace).filter (fun pr => pr.2.isNone) = [] := by
  apply List.filter_eq_nil_iff.mpr
  intro pr hpr
  obtain ⟨c0, _, hpr0⟩ := List.mem_flatMap.mp hpr
  rw [probe_snd_eq hpr0]
  simp

/-- C9: `find_all_stacktraces` appends at most one pair per container, the
raw stacktrace is preferred and shadows the processed one, a container with
neither slot contributes nothing, and the top-level stacktrace is exactly
the one pair whose container is `None` (present iff the top-level stacktrace
is truthy). -/
theorem find_all_stacktraces_selection (α : Type) (c : Container α)
    (d : EventData α) :
    (probe_for_stacktrace c).length ≤ 1
    ∧ (∀ raw, c.raw_stacktrace = some raw →
        probe_for_stacktrace c = [(raw, some c)])
    ∧ (∀ p, c.raw_stacktrace = none → c.stacktrace = some p →
        probe_for_stacktrace c = [(p, some c)])
    ∧ (c.raw_stacktrace = none → c.stacktrace = none →
        probe_for_stacktrace c = [])
    ∧ ((find_all_stacktraces d).filter (fun pr => pr.2.isNone)).length
        = (if d.stacktrace.isSome then 1 else 0) := by
  refine ⟨?_, ?_, ?_, ?_, ?_⟩
  · unfold probe_for_stacktrace
    cases c.raw_stacktrace <;> [skip; simp]
    cases c.stacktrace <;> simp
  · intro raw hr
    unfold probe_for_stacktrace
    rw [hr]
  · intro p hr hs
    unfold probe_for_stacktrace
    rw [hr, hs]
  · intro hr hs
    unfold probe_for_stacktrace
    rw [hr, hs]
  · obtain ⟨exc, st, thr⟩ := d
    unfold find_all_stacktraces
    cases exc <;> cases st <;> cases thr <;>
      simp [List.filter_append, filter_isNone_flatMap_probe]

/-- Witness for C9: on concrete containers, the raw stacktrace shadows the
processed one, a processed stacktrace is picked up when no raw one exists,
and an event with three exception values (one raw, one processed, one empty),
a truthy top-level stacktrace, and one thread has exactly one
container-`None` pair. -/
theorem find_all_stacktraces_selection_witness :
    probe_for_stacktrace (⟨some 5, some 6⟩ : Container Nat)
      = [(5, some ⟨some 5, some 6⟩)]
    ∧ probe_for_stacktrace (⟨none, some 2⟩ : Container Nat)
        = [(2, some ⟨none, some 2⟩)]
    ∧ probe_for_stacktrace (⟨none, none⟩ : Container Nat) = []
    ∧ ((find_all_stacktraces (⟨some [⟨some 1, some 9⟩, ⟨none, some 2⟩, ⟨none, none⟩],
          some 7, some [⟨none, some 3⟩]⟩ : EventData Nat)).filter
            (fun pr => pr.2.isNone)).length
        = (if (some 7 : Option Nat).isSome then 1 else 0) :=
  ⟨(find_all_stacktraces_selection Nat ⟨some 5, some 6⟩
      ⟨none, none, none⟩).2.1 5 rfl,
   (find_all_stacktraces_selection Nat ⟨none, some 2⟩
      ⟨none, none, none⟩).2.2.1 2 rfl rfl,
   (find_all_stacktraces_selection Nat ⟨none, none⟩
      ⟨none, none, none⟩).2.2.2.1 rfl rfl,
   (find_all_stacktraces_selection Nat ⟨none, none⟩
      ⟨some [⟨some 1, some 9⟩, ⟨none, some 2⟩, ⟨none, none⟩],
        some 7, some [⟨none, some 3⟩]⟩).2.2.2.2⟩

theorem splitOnChar_ne_nil (sep : Char) (l : List Char) :
    splitOnChar sep l ≠ [] := by
  cases l with
  | nil => simp [splitOnChar]
  | cons c cs =>
    unfold splitOnChar
    cases splitOnChar sep cs with
    | nil => simp
    | cons h t => by_cases hc : c = sep <;> simp [hc]

theorem splitOnChar_cons (sep c : Char) (cs : List Char) :
    splitOnChar sep (c :: cs)
      = match splitOnChar sep cs with
        | [] => [[c]]
        | h :: t => if c = sep then [] :: h :: t else (c :: h) :: t :=
  rfl

theorem length_splitOnChar_append (sep : Char) (l r : List Char) :
    (splitOnChar sep (l ++ r)).length ≥ (splitOnChar sep r).length := by
  induction l with
  | nil => simp
  | cons c cs ih =>
    rw [List.cons_append, splitOnChar_cons]
    cases hrec : splitOnChar sep (cs ++ r) with
    | nil => exact absurd hrec (splitOnChar_ne_nil sep _)
    | cons h t =>
      rw [hrec] at ih
      by_cases hc : c = sep <;> simp only [hc, if_true, if_false] <;>
        simp at ih ⊢ <;> omega

/-- The version component list of `get_sdk_from_os` always has exactly three
entries, because `".0.0.0"` is appended before splitting: the wildcard
branch of `get_sdk_from_os` is unreachable and short versions default their
missing components to 0. -/
theorem versionComponents_length (v : String) :
    (versionComponents v).length = 3 := by
  unfold versionComponents pySplit
  rw [List.length_take, List.length_map]
  have h2 : (splitOnChar '.' (".0.0.0".data)).length = 4 := by decide
  have h3 := length_splitOnChar_append '.' (versionHead v).data (".0.0.0".data)
  rw [String.data_append]
  omega

/-- C10: `get_sdk_from_os` returns `None` when `name` or `version` is
missing, and when `int` fails on one of the first three dot-separated
components of the version (truncated at the first dash, with `".0.0.0"`
appended — so missing components default to 0); otherwise it returns the
sdk-info with those three integer components and the input's `build` (or
`None`). -/
theorem get_sdk_from_os_parsing (d : OsData) :
    (d.name = none → get_sdk_from_os d = none)
    ∧ (d.version = none → get_sdk_from_os d = none)
    ∧ (∀ v, (versionComponents v).length = 3)
    ∧ (∀ n v, d.name = some n → d.version = some v →
        (pyIntList? (versionComponents v) = none → get_sdk_from_os d = none)
        ∧ (∀ a b c, pyIntList? (versionComponents v) = some [a, b, c] →
            get_sdk_from_os d = some ⟨n, a, b, c, d.build⟩)) := by
  obtain ⟨nm, ver, bld⟩ := d
  refine ⟨?_, ?_, versionComponents_length, ?_⟩
  · intro h
    simp only at h
    rw [h]
    rfl
  · intro h
    simp only at h
    rw [h]
    cases nm <;> rfl
  · intro n v hn hv
    simp only at hn hv
    rw [hn, hv]
    constructor
    · intro h
      simp [get_sdk_from_os, h]
    · intro a b c h
      simp [get_sdk_from_os, h]

/-- Witness for C10: an Apple-style version string parses into its three
components with the build carried over; a non-numeric component yields
`None`; a missing `name` yields `None`. -/
theorem get_sdk_from_os_parsing_witness :
    get_sdk_from_os ⟨some "iOS", some "9.3.2-rc1", some "13E230"⟩
      = some ⟨"iOS", 9, 3, 2, some "13E230"⟩
    ∧ get_sdk_from_os ⟨some "iOS", some "9.x", none⟩ = none
    ∧ get_sdk_from_os ⟨none, some "9.3.2", none⟩ = none :=
  ⟨((get_sdk_from_os_parsing ⟨some "iOS", some "9.3.2-rc1", some "13E230"⟩).2.2.2
      "iOS" "9.3.2-rc1" rfl rfl).2 9 3 2 (by decide),
   ((get_sdk_from_os_parsing ⟨some "iOS", some "9.x", none⟩).2.2.2
      "iOS" "9.x" rfl rfl).1 (by decide),
   (get_sdk_from_os_parsing ⟨none, some "9.3.2", none⟩).1 rfl⟩

end Sentry
